import Mathlib

/-!
Verification of the chat_server room broker.

Shallow embedding of `src/chat_server.c` and `src/utils.c`:
the JOIN handshake parser, the framed reader, the per-room member list,
the trie room directory, the broadcast loop and the connection handler's
join/leave paths, together with theorems settling the specification's
claims about them.
-/

set_option autoImplicit false

namespace ChatServer

/-! ## Character classes

`isWs` is C's `isspace` in the default locale: space, tab, newline,
vertical tab, form feed, carriage return.  It is the whitespace set of
`sscanf`'s `%s` and format-space directives. -/
def isWs (c : Char) : Bool :=
  c = ' ' || c = '\t' || c = '\n' || c = Char.ofNat 11 || c = Char.ofNat 12 || c = '\r'

/-! ## Generic delimiter splitting

`splitAux p l acc` splits `l` at every character satisfying `p`, keeping
empty chunks; `tokensOf p l` drops the empty chunks.  `tokensOf isWs`
gives the whitespace-separated tokens of a frame, and `tokensOf (· = nl)`
the newline-separated payload segments; both are used as specification-side
descriptions to compare the C code's sequential scanners against. -/
def splitAux {α : Type} (p : α → Bool) : List α → List α → List (List α)
  | [], acc => [acc.reverse]
  | c :: rest, acc =>
    if p c then acc.reverse :: splitAux p rest [] else splitAux p rest (c :: acc)

def tokensOf {α : Type} (p : α → Bool) (l : List α) : List (List α) :=
  (splitAux p l []).filter (fun t => !t.isEmpty)

/-! ## C5: the JOIN handshake parser (`validate_join`, src/chat_server.c:176-225)

The C parser is `sscanf(buff, "JOIN %s %s", room_name, user_name)` followed by
`strnlen(tok, 21) == 21` over-length checks.  `scanToken` models one `%s`
conversion: skip whitespace, read a maximal non-whitespace run, fail if the
input is exhausted first. -/
def scanToken (l : List Char) : Option (List Char × List Char) :=
  match l.dropWhile isWs with
  | [] => none
  | c :: r => some (c :: r.takeWhile (fun x => !isWs x), r.dropWhile (fun x => !isWs x))

/-- Model of `sscanf(buff, "JOIN %s %s", room_name, user_name)` (src/chat_server.c:190).
The literal directive matches the bytes `J`,`O`,`I`,`N` case-sensitively; the
format-string space matches any (possibly empty) run of whitespace, which is
subsumed by the whitespace skip of the following `%s`.  Returns the two
converted tokens exactly when the conversion count is 2. -/
def sscanfJoin (buff : List Char) : Option (List Char × List Char) :=
  if buff.take 4 = ['J', 'O', 'I', 'N'] then
    match scanToken (buff.drop 4) with
    | none => none
    | some (t1, r1) =>
      match scanToken r1 with
      | none => none
      | some (t2, _) => some (t1, t2)
  else none

/-- The parser `validate_join` (src/chat_server.c:176-225): accept iff `sscanf` converts
both tokens and `strnlen(user_name, 21) != 21 && strnlen(room_name, 21) != 21`,
i.e. both tokens are at most 20 bytes.  Returns the parsed (room, nick).
Allocation failure on the copies is not modelled. -/
def validate_join (buff : List Char) : Option (List Char × List Char) :=
  match sscanfJoin buff with
  | none => none
  | some (room, user) =>
    if min user.length 21 = 21 ∨ min room.length 21 = 21 then none
    else some (room, user)

/-- ASCII lower-casing, for the spec's case-insensitive keyword comparison. -/
def lowerAscii (c : Char) : Char :=
  if 'A' ≤ c ∧ c ≤ 'Z' then Char.ofNat (c.toNat + 32) else c

/-- The claim's acceptance condition, following the spec's words (§4.2):
exactly three whitespace-separated tokens, the first equal to `JOIN` under
ASCII case-insensitive comparison, the room and nick tokens each 1..20 bytes. -/
def specJoinValid (frame : List Char) : Bool :=
  match tokensOf isWs frame with
  | [kw, room, nick] =>
    (kw.map lowerAscii == ['j', 'o', 'i', 'n'])
      && decide (1 ≤ room.length) && decide (room.length ≤ 20)
      && decide (1 ≤ nick.length) && decide (nick.length ≤ 20)
  | _ => false

/-- The acceptance condition `validate_join` actually implements: the frame
starts with the literal, case-sensitive bytes `JOIN`, and the rest of the
buffer contains at least two whitespace-separated tokens whose first two are
each at most 20 bytes; any further content is ignored. -/
def codeJoinValid (frame : List Char) : Bool :=
  (frame.take 4 == ['J', 'O', 'I', 'N'])
    && match tokensOf isWs (frame.drop 4) with
       | t1 :: t2 :: _ => decide (t1.length ≤ 20) && decide (t2.length ≤ 20)
       | _ => false

/-! ## C6: ACTIVE-state line processing (`client_serve`, src/chat_server.c:653-675)

After a successful read the handler runs `strtok(packet_start, "\n")` in a
loop and broadcasts one `<nick>: <line>\n` message per returned token.
`strtokGo` models the `strtok` loop with explicit fuel (so that it is
structurally recursive and computable); `l.length + 1` fuel always suffices. -/
def isNl (c : Char) : Bool := c = '\n'

def strtokGo (p : Char → Bool) : Nat → List Char → List (List Char)
  | 0, _ => []
  | fuel + 1, l =>
    match l.dropWhile p with
    | [] => []
    | c :: r =>
      (c :: r.takeWhile (fun x => !p x)) :: strtokGo p fuel (r.dropWhile (fun x => !p x))

/-- The sequence of tokens the `strtok(·, "\n")` loop of `client_serve`
yields on one read's buffer: skip delimiters, take a maximal run, repeat. -/
def strtokAll (p : Char → Bool) (l : List Char) : List (List Char) :=
  strtokGo p (l.length + 1) l

/-- The payload segments `client_serve` broadcasts (each then framed as
`<nick>: <segment>\n`) for the data of one read in the ACTIVE state. -/
def activeSegments (buff : List Char) : List (List Char) :=
  strtokAll isNl buff

/-- The claim's description, following the spec's words: only the *complete*
newline-terminated lines — every split chunk except the one after the last
newline — and of those only the non-empty ones. -/
def specCompleteSegments (buff : List Char) : List (List Char) :=
  ((splitAux isNl buff []).dropLast).filter (fun t => !t.isEmpty)

/-! ## C7: join and leave announcements (src/chat_server.c:74-77, 519, 635)

`client_serve` builds both announcements with
`snprintf(out_buff, MAX_BUFF_LEN, "%s %s\n", nick, constant)` where the
constants `join_buff = "has joined\n"` and `left_buff = "has left\n"`
already end in a newline, so the format string's `\n` appends a second one.
`snprintf` with a 20001-byte buffer truncates its output to 20000 bytes. -/
def join_buff : List Char := "has joined\n".toList

def left_buff : List Char := "has left\n".toList

def error_buff : List Char := "ERROR\n".toList

def snprintfCap (l : List Char) : List Char := l.take 20000

def joinAnnouncement (nick : List Char) : List Char :=
  snprintfCap (nick ++ [' '] ++ join_buff ++ ['\n'])

def leaveAnnouncement (nick : List Char) : List Char :=
  snprintfCap (nick ++ [' '] ++ left_buff ++ ['\n'])

/-! ## C8: the frame length limit (`read_wrapper`, src/chat_server.c:338-382)

`read_wrapper` accumulates reads into a `MAX_BUFF_LEN = 20001`-byte scratch,
scanning the whole accumulated buffer for `\n` after every read
(`strchr(start_ptr, MSG_DELIMETER)`), and gives up (`NULL`) when `remainder`
reaches 0 — i.e. after 20001 bytes without a newline — or when `read`
returns 0 or an error.  `readLoop` models one execution in which every
`read` delivers one byte of the remaining stream (legal for a TCP socket;
since the whole buffer is re-scanned after each read, acceptance depends
only on the byte stream, not on the read chunking). -/
def readLoop : Nat → List Char → List Char → Option (List Char)
  | 0, _, _ => none
  | _ + 1, _, [] => none
  | r + 1, buf, b :: s =>
    if '\n' ∈ buf ++ [b] then some (buf ++ [b])
    else readLoop r (buf ++ [b]) s

/-- Model of `read_wrapper` in the ACTIVE state (`init = false`), returning the
accumulated buffer up to the first newline, or `none` (C `NULL`) on
overflow/EOF. -/
def read_wrapper_active (stream : List Char) : Option (List Char) :=
  readLoop 20001 [] stream

/-- The connection handler's read-failure branch
(src/chat_server.c:500-534): `client_error` writes `ERROR\n` and closes the
socket; in the ACTIVE state (`new_request == false`) the handler then
removes itself from the room and broadcasts the leave announcement. -/
inductive HandlerAct where
  | writeBytes (msg : List Char)
  | closeConn
  | removeSelf
  | announce (msg : List Char)
  deriving DecidableEq

def onReadFailure (activeNick : Option (List Char)) : List HandlerAct :=
  match activeNick with
  | some nick =>
    [.writeBytes error_buff, .closeConn, .removeSelf, .announce (leaveAnnouncement nick)]
  | none => [.writeBytes error_buff, .closeConn]

/-! ## The resizable member list (`rs_array_t`, src/utils.c:104-160)

The backing store of an `rs_array_t` is modelled as a total function
`Int → Int`: C memory outside the first `size` slots — including `data[-1]`,
which `insert_into_rs_array` reads when `size == 0`, and `data[size]`, which
the removal shift reads — holds arbitrary junk, represented by the
function's values there.  The observable member list is the first `size`
slots. -/
structure RsArray where
  data : Int → Int
  size : Int
  cap : Int

structure RoomMembers where
  user_fds : RsArray
  num_people : Int

def obsList (rs : RsArray) : List Int :=
  (List.range rs.size.toNat).map (fun k : Nat => rs.data (k : Int))

/-- Model of `insert_into_rs_array` (src/utils.c:134-160, duplicated at
src/chat_server.c:148-174): rejects with `-EINVAL` (-22) when
`data[size-1] == user_fd` — only the slot just below `size` is compared, and
for `size == 0` this is the junk word at `data[-1]` — otherwise doubles
`cap` when full and appends `user_fd` at index `size`.  `realloc` is assumed
to succeed (`-ENOMEM` is not modelled). -/
def insert_into_rs_array (rs : RsArray) (user_fd : Int) : Except Int RsArray :=
  if rs.data (rs.size - 1) = user_fd then Except.error (-22)
  else
    Except.ok
      { data := fun j => if j = rs.size then user_fd else rs.data j,
        size := rs.size + 1,
        cap := if rs.size = rs.cap then 2 * rs.cap else rs.cap }

/-- Model of `remove_user` (src/chat_server.c:423-467), restricted to the room
mutation it performs (closing the fd and freeing the session record are not
room state): find the first index `i < num_people` with `data[i] == connfd`;
if none, return `-ENOENT` (-2) with the room unchanged; otherwise shift
`data[j] = data[j+1]` for `j` from `i` to `num_people - 1` (each slot takes
the old value of its right neighbour, the last one the junk at
`data[num_people]`), then decrement `size` and `num_people`.  The room is
never unmapped from the directory here — when `num_people` reaches 0 the
code only prints `delete room`. -/
def remove_user (room : RoomMembers) (connfd : Int) : Except Int RoomMembers :=
  match (List.range room.num_people.toNat).find?
      (fun k : Nat => decide (room.user_fds.data (k : Int) = connfd)) with
  | none => Except.error (-2)
  | some i =>
    Except.ok
      { user_fds :=
          { data := fun j =>
              if (i : Int) ≤ j ∧ j < room.num_people then room.user_fds.data (j + 1)
              else room.user_fds.data j,
            size := room.user_fds.size - 1,
            cap := room.user_fds.cap },
        num_people := room.num_people - 1 }

/-- The registration step of `client_serve` (src/chat_server.c:608-619):
`insert_into_rs_array(&room->user_fds, *clientfd)` and, on success,
`room->num_people++`; on failure the handler aborts and the room is left
unchanged. -/
def addMember (room : RoomMembers) (fd : Int) : Except Int RoomMembers :=
  match insert_into_rs_array room.user_fds fd with
  | Except.ok fds => Except.ok { user_fds := fds, num_people := room.num_people + 1 }
  | Except.error e => Except.error e

/-- The room state after a step that may fail: the C functions leave the
room unchanged on their error returns. -/
def exceptState (old : RoomMembers) : Except Int RoomMembers → RoomMembers
  | Except.ok r => r
  | Except.error _ => old

/-- The add-then-remove experiment of spec property R2, as `client_serve`
runs it: register `h`, then run the leave path for `h`. -/
def addThenRemove (room : RoomMembers) (h : Int) : RoomMembers :=
  exceptState (exceptState room (addMember room h))
    (remove_user (exceptState room (addMember room h)) h)

/-- The write loop of `broadcast_msg`, parameterized by the value each
member's `write` returns: locks the room, then for `i` from 0 to
`num_people - 1` writes to `data[i]`, and on `write == -1` immediately
returns `-errno` — skipping every remaining member and (in the C code) never
unlocking the mutex.  The model returns the list of members actually written
to, in order, and whether the loop aborted with the error return. -/
def broadcast_msg (members : List Int) (writeRes : Int → Int) : List Int × Bool :=
  match members with
  | [] => ([], false)
  | fd :: rest =>
    if writeRes fd = -1 then ([fd], true)
    else
      ((fd :: (broadcast_msg rest writeRes).1), (broadcast_msg rest writeRes).2)

/-- A reachable member-list state holding fds 5 and 7 (fd 5 joined first). -/
def rsPair : RsArray :=
  { data := fun i => if i = 0 then 5 else if i = 1 then 7 else 0,
    size := 2,
    cap := 1000 }

/-- A concrete instance of C9's round trip: member list `[7]`, adding and
removing fd 5. -/
def roomW : RoomMembers :=
  { user_fds := { data := fun i => if i = 0 then 7 else 0, size := 1, cap := 1000 },
    num_people := 1 }

/-! ## The room directory trie (src/utils.c:38-374, src/chat_server.c:62-319)

Each `trie_node_t` holds an `is_word` flag, a room pointer, and 128 children
indexed by `toascii(c) = c & 0x7f`.  Rooms are modelled by allocation order:
`Nat` identifiers issued by a `fresh` counter in the directory state.  Both
files bound the traversal by `strnlen(name, MAX_ROOMNAME_LEN = 21)`. -/
inductive TrieNode : Type where
  | mk (word : Bool) (room : Option Nat) (child : Fin 128 → Option TrieNode)

def TrieNode.word : TrieNode → Bool
  | .mk w _ _ => w

def TrieNode.room : TrieNode → Option Nat
  | .mk _ r _ => r

def TrieNode.child : TrieNode → Fin 128 → Option TrieNode
  | .mk _ _ c => c

/-- Model of `init_trie_node`: no children, no room, `is_word = false`. -/
def initTrieNode : TrieNode := .mk false none (fun _ => none)

/-- Model of `toascii(c) = c & 0x7f`: the child index for one name byte. -/
def toIdx (b : Nat) : Fin 128 := ⟨b % 128, Nat.mod_lt b (by omega)⟩

/-- The child indices a name's traversal visits:
`toascii(room_name[i])` for `i < strnlen(room_name, 21)`. -/
def namePath (name : List Nat) : List (Fin 128) := (name.take 21).map toIdx

/-- The traversal shared by both files' `search_room` (src/utils.c:355-374,
src/chat_server.c:228-248): follow the child for each byte, `NULL` if a
child is missing, else the terminal node's room pointer (`is_word` is not
consulted). -/
def searchPath : TrieNode → List (Fin 128) → Option Nat
  | t, [] => t.room
  | t, i :: rest =>
    match t.child i with
    | none => none
    | some c => searchPath c rest

/-- The node rebuild performed by `create_room` (src/utils.c:273-346, and
the near-identical copy at src/chat_server.c:250-319): walk the path,
allocating `init_trie_node` children where missing, then store a fresh room
pointer at the terminal node — unconditionally overwriting any room already
hanging there.  The utils.c version (`setWord = true`) also sets `is_word`;
the chat_server.c copy never touches it. -/
def createPath (setWord : Bool) : TrieNode → List (Fin 128) → Nat → TrieNode
  | t, [], rid => .mk (setWord || t.word) (some rid) t.child
  | t, i :: rest, rid =>
    .mk t.word t.room
      (fun j =>
        if j = i then some (createPath setWord ((t.child i).getD initTrieNode) rest rid)
        else t.child j)

structure Directory where
  root : TrieNode
  fresh : Nat

def emptyDirectory : Directory := { root := initTrieNode, fresh := 0 }

def search_room (d : Directory) (name : List Nat) : Option Nat :=
  searchPath d.root (namePath name)

/-- Model of `create_room` (src/utils.c:273-346): rejects a name containing `'\n'`
(byte 10) or `' '` (byte 32) — `strchr` over the whole C string — otherwise
inserts and returns a fresh room.  Allocation failure is not modelled. -/
def create_room (d : Directory) (name : List Nat) : Option (Nat × Directory) :=
  if 10 ∈ name ∨ 32 ∈ name then none
  else some (d.fresh, { root := createPath true d.root (namePath name) d.fresh,
                        fresh := d.fresh + 1 })

/-- The `create_room` copy at src/chat_server.c:250-319: same name check,
same traversal and overwrite, but `is_word` is never set (and the room's
name is never stored). -/
def create_room_cs (d : Directory) (name : List Nat) : Option (Nat × Directory) :=
  if 10 ∈ name ∨ 32 ∈ name then none
  else some (d.fresh, { root := createPath false d.root (namePath name) d.fresh,
                        fresh := d.fresh + 1 })

/-! ## C1: rooms are never unmapped from the directory

`client_serve` combines the directory with per-room member state.  The
server state below is what its join and leave paths touch. -/
structure ServerState where
  dir : Directory
  rooms : Nat → RoomMembers

/-- Note on junk: `init_rs_array` (src/chat_server.c:118-136) `malloc`s the fd array
without zeroing it; `junk` is its indeterminate content. -/
def newRoomMembers (junk : Int → Int) : RoomMembers :=
  { user_fds := { data := junk, size := 0, cap := 1000 }, num_people := 0 }

def emptyServer : ServerState :=
  { dir := emptyDirectory, rooms := fun _ => newRoomMembers (fun _ => 0) }

/-- The registration path of `client_serve` (src/chat_server.c:536-631):
under `trie_lock`, `search_room`; if absent, `create_room` (the
chat_server.c copy); then under the room lock, `insert_into_rs_array` and
`room->num_people++`.  Returns the new state and the room id, or `none`
where the C handler bails out. -/
def joinRegister (st : ServerState) (name : List Nat) (fd : Int) (junk : Int → Int) :
    Option (ServerState × Nat) :=
  match search_room st.dir name with
  | some rid =>
    match addMember (st.rooms rid) fd with
    | Except.ok room2 =>
      some ({ dir := st.dir, rooms := fun k => if k = rid then room2 else st.rooms k }, rid)
    | Except.error _ => none
  | none =>
    match create_room_cs st.dir name with
    | none => none
    | some (rid, d2) =>
      match addMember (newRoomMembers junk) fd with
      | Except.ok room2 =>
        some ({ dir := d2, rooms := fun k => if k = rid then room2 else st.rooms k }, rid)
      | Except.error _ => none

/-- The LEAVE path (src/chat_server.c:503-526): `remove_user` on the room.
The directory is not touched: when the member count reaches zero,
`remove_user` only prints `delete room` (src/chat_server.c:449-451); the
`delete_room` of src/utils.c:243-262 is never called by the server. -/
def handleDisconnect (st : ServerState) (rid : Nat) (fd : Int) : ServerState :=
  { dir := st.dir,
    rooms := fun k =>
      if k = rid then exceptState (st.rooms rid) (remove_user (st.rooms rid) fd)
      else st.rooms k }

/-! ## C4: atomicity of get-or-create

The join path holds `trie_lock` separately for the lookup
(src/chat_server.c:540-558) and for the creation
(src/chat_server.c:563-593); between the two the lock is released.  An
execution is therefore an interleaving of these atomic critical sections.
Each thread's program: pc 0 — `room = search_room(name)`; pc 1 — if `room`
is NULL, `room = create_room(name)`; pc 2 — done. -/
structure C4Thread where
  pc : Nat
  res : Option Nat

structure C4System where
  dir : Directory
  thA : C4Thread
  thB : C4Thread

def c4step (name : List Nat) (sys : C4System) (isA : Bool) : C4System :=
  let t := if isA then sys.thA else sys.thB
  match t.pc with
  | 0 =>
    let t2 : C4Thread := { pc := 1, res := search_room sys.dir name }
    if isA then { sys with thA := t2 } else { sys with thB := t2 }
  | 1 =>
    match t.res with
    | some _ =>
      let t2 : C4Thread := { t with pc := 2 }
      if isA then { sys with thA := t2 } else { sys with thB := t2 }
    | none =>
      match create_room_cs sys.dir name with
      | some (rid, d2) =>
        let t2 : C4Thread := { pc := 2, res := some rid }
        if isA then { dir := d2, thA := t2, thB := sys.thB }
        else { dir := d2, thA := sys.thA, thB := t2 }
      | none =>
        let t2 : C4Thread := { pc := 2, res := none }
        if isA then { sys with thA := t2 } else { sys with thB := t2 }
  | _ => sys

def c4init : C4System :=
  { dir := emptyDirectory, thA := { pc := 0, res := none }, thB := { pc := 0, res := none } }

def c4run (name : List Nat) (sched : List Bool) : C4System :=
  sched.foldl (c4step name) c4init

/-! ## Helper lemmas and claim theorems -/

theorem splitAux_chunk {α : Type} (p : α → Bool) (l acc : List α) :
    splitAux p l acc =
      (acc.reverse ++ l.takeWhile (fun c => !p c)) ::
        (match l.dropWhile (fun c => !p c) with
          | [] => []
          | _ :: r => splitAux p r []) := by
  induction l generalizing acc with
  | nil => simp [splitAux]
  | cons c rest ih =>
    by_cases h : p c
    · simp [splitAux, h, List.takeWhile_cons, List.dropWhile_cons]
    · simp only [splitAux, h, if_neg, Bool.false_eq_true, not_false_iff, if_false,
        List.takeWhile_cons, List.dropWhile_cons, Bool.not_false, if_true]
      rw [ih (c :: acc)]
      simp

theorem dropWhile_head_false {α : Type} (q : α → Bool) (l : List α) (d : α)
    (r : List α) (h : l.dropWhile q = d :: r) : q d = false := by
  induction l with
  | nil => simp [List.dropWhile] at h
  | cons c rest ih =>
    by_cases hc : q c
    · exact ih (by simpa [List.dropWhile_cons, hc] using h)
    · rw [List.dropWhile_cons, if_neg (by simp [hc])] at h
      cases h
      simpa using hc

theorem tokensOf_nil {α : Type} (p : α → Bool) : tokensOf p [] = [] := by
  simp [tokensOf, splitAux]

theorem tokensOf_cons_ws {α : Type} (p : α → Bool) (c : α) (l : List α)
    (h : p c = true) : tokensOf p (c :: l) = tokensOf p l := by
  simp [tokensOf, splitAux, h]

theorem tokensOf_cons_tok {α : Type} (p : α → Bool) (c : α) (l : List α)
    (h : p c = false) :
    tokensOf p (c :: l) =
      (c :: l.takeWhile (fun x => !p x)) :: tokensOf p (l.dropWhile (fun x => !p x)) := by
  have hsplit : splitAux p (c :: l) [] = splitAux p l [c] := by
    simp [splitAux, h]
  rw [tokensOf, hsplit, splitAux_chunk p l [c]]
  cases hdef : l.dropWhile (fun x => !p x) with
  | nil =>
    simp [tokensOf, splitAux, List.filter_cons]
  | cons d r =>
    have hd : p d = true := by
      have := dropWhile_head_false (fun x => !p x) l d r hdef
      simpa using this
    rw [tokensOf_cons_ws p d r hd]
    simp [tokensOf, List.filter_cons]

/-- One-step scanner characterization of `tokensOf`: the first token is the
maximal non-delimiter run after skipping delimiters, and the remaining tokens
are those of the remaining input. -/
theorem tokensOf_eq_scan {α : Type} (p : α → Bool) (l : List α) :
    tokensOf p l =
      match l.dropWhile p with
      | [] => []
      | c :: r =>
        (c :: r.takeWhile (fun x => !p x)) :: tokensOf p (r.dropWhile (fun x => !p x)) := by
  induction l with
  | nil => simp [tokensOf_nil, List.dropWhile]
  | cons c rest ih =>
    cases h : p c with
    | true => rw [tokensOf_cons_ws p c rest h, ih, List.dropWhile_cons, if_pos h]
    | false => rw [tokensOf_cons_tok p c rest h, List.dropWhile_cons, if_neg (by simp [h])]

/-- C5, as stated by the spec, is refuted by the frame `JOIN a b c\n`: it has
four whitespace-separated tokens, so the spec calls it malformed, but
`validate_join` accepts it (with room `a` and nick `b`). -/
theorem c5_counterexample :
    (validate_join ("JOIN a b c\n".toList)).isSome = true ∧
      specJoinValid ("JOIN a b c\n".toList) = false ∧
      validate_join ("JOIN a b c\n".toList) = some ("a".toList, "b".toList) := by
  refine ⟨by decide, by decide, by decide⟩

/-- C5 amended: `validate_join` accepts a buffer iff it starts with the
literal case-sensitive bytes `JOIN` and the remainder holds at least two
whitespace-separated tokens, the first two of which (room, then nick) are each
1..20 bytes; extra tokens or trailing content are ignored rather than
rejected, and a lower-case keyword is rejected. -/
theorem scanToken_of_drop_nil (l : List Char) (h : l.dropWhile isWs = []) :
    scanToken l = none := by
  unfold scanToken
  rw [h]

theorem scanToken_of_drop_cons (l : List Char) (c : Char) (r : List Char)
    (h : l.dropWhile isWs = c :: r) :
    scanToken l =
      some (c :: r.takeWhile (fun x => !isWs x), r.dropWhile (fun x => !isWs x)) := by
  unfold scanToken
  rw [h]

theorem c5_validate_join_characterization (frame : List Char) :
    (validate_join frame).isSome = codeJoinValid frame := by
  by_cases h4 : frame.take 4 = ['J', 'O', 'I', 'N']
  · have h4b : (frame.take 4 == ['J', 'O', 'I', 'N']) = true := by
      simpa using h4
    cases hd1 : (frame.drop 4).dropWhile isWs with
    | nil =>
      have hs1 := scanToken_of_drop_nil (frame.drop 4) hd1
      have ht1 : tokensOf isWs (frame.drop 4) = [] := by
        rw [tokensOf_eq_scan isWs (frame.drop 4), hd1]
      simp [validate_join, sscanfJoin, if_pos h4, hs1, codeJoinValid, ht1]
    | cons c r =>
      have hs1 := scanToken_of_drop_cons (frame.drop 4) c r hd1
      have ht1 : tokensOf isWs (frame.drop 4) =
          (c :: r.takeWhile (fun x => !isWs x)) ::
            tokensOf isWs (r.dropWhile (fun x => !isWs x)) := by
        rw [tokensOf_eq_scan isWs (frame.drop 4), hd1]
      cases hd2 : (r.dropWhile (fun x => !isWs x)).dropWhile isWs with
      | nil =>
        have hs2 := scanToken_of_drop_nil (r.dropWhile (fun x => !isWs x)) hd2
        have ht2 : tokensOf isWs (r.dropWhile (fun x => !isWs x)) = [] := by
          rw [tokensOf_eq_scan isWs (r.dropWhile (fun x => !isWs x)), hd2]
        simp [validate_join, sscanfJoin, if_pos h4, hs1, hs2, codeJoinValid, ht1, ht2]
      | cons d r2 =>
        have hs2 := scanToken_of_drop_cons (r.dropWhile (fun x => !isWs x)) d r2 hd2
        have ht2 : tokensOf isWs (r.dropWhile (fun x => !isWs x)) =
            (d :: r2.takeWhile (fun x => !isWs x)) ::
              tokensOf isWs (r2.dropWhile (fun x => !isWs x)) := by
          rw [tokensOf_eq_scan isWs (r.dropWhile (fun x => !isWs x)), hd2]
        have hvj : validate_join frame =
            (if min (d :: r2.takeWhile (fun x => !isWs x)).length 21 = 21 ∨
                min (c :: r.takeWhile (fun x => !isWs x)).length 21 = 21 then none
             else some (c :: r.takeWhile (fun x => !isWs x),
                        d :: r2.takeWhile (fun x => !isWs x))) := by
          simp [validate_join, sscanfJoin, if_pos h4, hs1, hs2]
        rw [hvj, codeJoinValid, h4b, Bool.true_and, ht1, ht2]
        dsimp only
        by_cases hlen : min (d :: r2.takeWhile (fun x => !isWs x)).length 21 = 21 ∨
            min (c :: r.takeWhile (fun x => !isWs x)).length 21 = 21
        · rw [if_pos hlen]
          rcases hlen with hl | hl
          · rw [decide_eq_false (show ¬ (d :: r2.takeWhile (fun x => !isWs x)).length ≤ 20 by omega)]
            simp
          · rw [decide_eq_false (show ¬ (c :: r.takeWhile (fun x => !isWs x)).length ≤ 20 by omega)]
            simp
        · rw [if_neg hlen]
          push_neg at hlen
          obtain ⟨hl2, hl1⟩ := hlen
          rw [decide_eq_true (show (c :: r.takeWhile (fun x => !isWs x)).length ≤ 20 by omega),
              decide_eq_true (show (d :: r2.takeWhile (fun x => !isWs x)).length ≤ 20 by omega)]
          rfl
  · have h4b : (frame.take 4 == ['J', 'O', 'I', 'N']) = false := by
      simp [h4]
    rw [validate_join, sscanfJoin, if_neg h4, codeJoinValid, h4b, Bool.false_and]
    rfl

theorem strtokGo_eq_tokensOf (p : Char → Bool) (fuel : Nat) (l : List Char)
    (h : l.length < fuel) : strtokGo p fuel l = tokensOf p l := by
  induction fuel generalizing l with
  | zero => omega
  | succ n ih =>
    rw [strtokGo, tokensOf_eq_scan]
    cases hd : l.dropWhile p with
    | nil => rfl
    | cons c r =>
      have hlen : (c :: r).length ≤ l.length := by
        have := (List.dropWhile_sublist (l := l) (p := p)).length_le
        rw [hd] at this
        exact this
      have hr : (r.dropWhile (fun x => !p x)).length < n := by
        have := (List.dropWhile_sublist (l := r) (p := fun x => !p x)).length_le
        simp only [List.length_cons] at hlen
        omega
      dsimp only
      rw [ih (r.dropWhile (fun x => !p x)) hr]

/-- C6, as stated, is refuted by a read delivering `hi\nbye`: the claim says
only the complete line `hi` is broadcast and `bye` is retained for the next
read, but `client_serve` broadcasts both `hi` and `bye` (strtok also returns
the trailing newline-less segment, and the next loop iteration clears the
buffer, retaining nothing). -/
theorem c6_counterexample :
    activeSegments ("hi\nbye".toList) = ["hi".toList, "bye".toList] ∧
      specCompleteSegments ("hi\nbye".toList) = ["hi".toList] ∧
      activeSegments ("hi\nbye".toList) ≠ specCompleteSegments ("hi\nbye".toList) := by
  refine ⟨by decide, by decide, by decide⟩

/-- C6 amended: for the data delivered by a single read in the ACTIVE state,
the broadcast segments are exactly the non-empty maximal newline-free
segments, in stream order — *including* the segment after the last newline,
which is broadcast rather than retained (nothing is carried to the next
read). -/
theorem c6_broadcast_segments (buff : List Char) :
    activeSegments buff = tokensOf isNl buff := by
  exact strtokGo_eq_tokensOf isNl (buff.length + 1) buff (by omega)

/-- C7, as stated, is refuted at nick `alice`: the code broadcasts
`alice has joined\n\n` and `alice has left\n\n` — the constant already ends
in a newline and the `"%s %s\n"` format appends another — not the claimed
single-newline byte strings. -/
theorem c7_counterexample :
    joinAnnouncement ("alice".toList) ≠ "alice has joined\n".toList ∧
      leaveAnnouncement ("alice".toList) ≠ "alice has left\n".toList ∧
      joinAnnouncement ("alice".toList) = "alice has joined\n\n".toList ∧
      leaveAnnouncement ("alice".toList) = "alice has left\n\n".toList := by
  refine ⟨by decide, by decide, by decide, by decide⟩

/-- C7 amended: for every nickname of 1..20 bytes, the join announcement is
exactly `<nick> has joined\n\n` and the leave announcement exactly
`<nick> has left\n\n` — each with two trailing newlines. -/
theorem c7_announcement_bytes (nick : List Char) (h : nick.length ≤ 20) :
    joinAnnouncement nick = nick ++ " has joined\n\n".toList ∧
      leaveAnnouncement nick = nick ++ " has left\n\n".toList := by
  constructor
  · have htail : ([' '] ++ join_buff ++ ['\n'] : List Char) = " has joined\n\n".toList := by
      decide
    rw [joinAnnouncement, snprintfCap, List.append_assoc, List.append_assoc,
        ← List.append_assoc [' '], htail]
    refine List.take_of_length_le ?_
    simp only [List.length_append]
    have : (" has joined\n\n".toList).length = 13 := by decide
    omega
  · have htail : ([' '] ++ left_buff ++ ['\n'] : List Char) = " has left\n\n".toList := by
      decide
    rw [leaveAnnouncement, snprintfCap, List.append_assoc, List.append_assoc,
        ← List.append_assoc [' '], htail]
    refine List.take_of_length_le ?_
    simp only [List.length_append]
    have : (" has left\n\n".toList).length = 11 := by decide
    omega

theorem c7_announcement_bytes_witness :
    ("alice".toList : List Char).length ≤ 20 ∧
      (joinAnnouncement ("alice".toList) = "alice".toList ++ " has joined\n\n".toList ∧
        leaveAnnouncement ("alice".toList) = "alice".toList ++ " has left\n\n".toList) :=
  ⟨by decide, c7_announcement_bytes ("alice".toList) (by decide)⟩

theorem readLoop_isSome_iff (r : Nat) (buf stream : List Char) (h : '\n' ∉ buf) :
    (readLoop r buf stream).isSome = true ↔ '\n' ∈ stream.take r := by
  induction r generalizing buf stream with
  | zero => simp [readLoop]
  | succ n ih =>
    cases stream with
    | nil => simp [readLoop]
    | cons b s =>
      rw [readLoop]
      by_cases hb : '\n' ∈ buf ++ [b]
      · have hbn : b = '\n' := by
          rcases List.mem_append.mp hb with hx | hx
          · exact absurd hx h
          · have h1 : '\n' = b := by simpa using hx
            exact h1.symm
        rw [if_pos hb]
        simp [hbn]
      · have hbn : b ≠ '\n' := by
          intro hx
          exact hb (List.mem_append.mpr (Or.inr (by simp [hx])))
        rw [if_neg hb, ih (buf ++ [b]) s hb]
        simp only [List.take_succ_cons, List.mem_cons]
        constructor
        · exact Or.inr
        · rintro (hx | hx)
          · exact absurd hx.symm hbn
          · exact hx

/-- C8, as stated, is refuted by a stream whose first 20000 bytes are `a`
followed by a newline: the claim says the reader must report an error (the
frame, 20001 bytes including its newline, exceeds MAX_FRAME = 20000), but
`read_wrapper` accepts it — its scratch holds `MAX_BUFF_LEN = 20001` bytes,
so the newline in position 20001 is still found. -/
theorem c8_counterexample :
    '\n' ∉ List.replicate 20000 'a' ∧
      (read_wrapper_active (List.replicate 20000 'a' ++ ['\n'])).isSome = true := by
  constructor
  · intro hx
    have := List.eq_of_mem_replicate hx
    simp at this
  · rw [read_wrapper_active,
        readLoop_isSome_iff 20001 [] (List.replicate 20000 'a' ++ ['\n']) (by simp)]
    have hlen : (List.replicate 20000 'a' ++ ['\n'] : List Char).length ≤ 20001 := by
      simp only [List.length_append, List.length_replicate, List.length_cons, List.length_nil]
      omega
    rw [List.take_of_length_le hlen]
    exact List.mem_append.mpr (Or.inr (by simp))

/-- C8 amended: the accepted-frame threshold is `MAX_BUFF_LEN = 20001`, not
20000: a frame is accepted iff its terminating newline lies within the first
20001 bytes of the stream, and an input whose next 20001 bytes contain no
newline (or that ends first) makes `read_wrapper` fail, upon which the
handler writes `ERROR\n` and then closes the connection (and, when active,
deregisters and announces the departure). -/
theorem c8_frame_limit (stream : List Char) (activeNick : Option (List Char)) :
    ((read_wrapper_active stream).isSome = true ↔ '\n' ∈ stream.take 20001) ∧
      (onReadFailure activeNick).take 2 = [.writeBytes error_buff, .closeConn] := by
  constructor
  · exact readLoop_isSome_iff 20001 [] stream (by simp)
  · cases activeNick <;> rfl

theorem mem_obsList (rs : RsArray) (k : Nat) (hk : k < rs.size.toNat) :
    rs.data k ∈ obsList rs :=
  List.mem_map_of_mem _ (List.mem_range.mpr hk)

/-- C2 is violated by the code: in a room with members 4 and 5 where the
write to 4 fails, `broadcast_msg` returns the `-errno` failure immediately —
the write to member 5 is never attempted, and the broadcaster reports
failure instead of success. -/
theorem c2_broadcast_aborts :
    broadcast_msg [4, 5] (fun fd => if fd = 4 then -1 else 18) = ([4], true) ∧
      (5 : Int) ∉ (broadcast_msg [4, 5] (fun fd => if fd = 4 then -1 else 18)).1 := by
  refine ⟨by decide, by decide⟩

/-- C3 is violated by the code: with member list `[5, 7]`, inserting fd 5
again succeeds — `insert_into_rs_array` compares only `data[size-1] = 7` —
and produces the duplicate-bearing list `[5, 7, 5]`, although 5 is already
present. -/
theorem c3_duplicate_insert :
    (5 : Int) ∈ obsList rsPair ∧
      (match insert_into_rs_array rsPair 5 with
        | Except.ok r => some (obsList r)
        | Except.error _ => none) = some [5, 7, 5] := by
  refine ⟨by decide, by decide⟩

/-- C9 confirmed: from any member-list state (`num_people` in sync with
`size`, as `client_serve` maintains) and any fd `h` not currently a member,
running the add step and then the remove step restores the observable member
list — the first `size` slots and `size` itself — exactly, whatever junk the
out-of-bounds slots hold.  (If the junk at `data[-1]` equals `h` and the
list is empty, the add is rejected and the remove then misses; both steps
leave the state unchanged, so the round trip still restores it.) -/
theorem c9_add_remove_roundtrip (room : RoomMembers) (h : Int)
    (hwf : room.num_people = room.user_fds.size)
    (hnn : 0 ≤ room.user_fds.size)
    (hmem : h ∉ obsList room.user_fds) :
    obsList (addThenRemove room h).user_fds = obsList room.user_fds ∧
      (addThenRemove room h).user_fds.size = room.user_fds.size ∧
      (addThenRemove room h).num_people = room.num_people := by
  unfold addThenRemove
  by_cases hrej : room.user_fds.data (room.user_fds.size - 1) = h
  · have hins : addMember room h = Except.error (-22) := by
      unfold addMember insert_into_rs_array
      rw [if_pos hrej]
    rw [hins]
    simp only [exceptState]
    have hfind : (List.range room.num_people.toNat).find?
        (fun k : Nat => decide (room.user_fds.data (k : Int) = h)) = none := by
      refine List.find?_eq_none.mpr ?_
      intro k hk
      simp only [decide_eq_true_eq]
      intro hdata
      refine hmem ?_
      rw [← hdata]
      refine mem_obsList room.user_fds k ?_
      have hk' := List.mem_range.mp hk
      omega
    have hrem : remove_user room h = Except.error (-2) := by
      unfold remove_user
      rw [hfind]
    rw [hrem]
    exact ⟨rfl, rfl, rfl⟩
  · have hins : addMember room h = Except.ok
        { user_fds :=
            { data := fun j => if j = room.user_fds.size then h else room.user_fds.data j,
              size := room.user_fds.size + 1,
              cap := if room.user_fds.size = room.user_fds.cap then 2 * room.user_fds.cap
                     else room.user_fds.cap },
          num_people := room.num_people + 1 } := by
      unfold addMember insert_into_rs_array
      rw [if_neg hrej]
    rw [hins]
    simp only [exceptState]
    have hsz : ((room.user_fds.size.toNat : Nat) : Int) = room.user_fds.size := by omega
    have hn : (room.num_people + 1).toNat = room.user_fds.size.toNat + 1 := by omega
    have hfind : (List.range (room.num_people + 1).toNat).find?
        (fun k : Nat => decide ((if (k : Int) = room.user_fds.size then h
          else room.user_fds.data (k : Int)) = h)) = some room.user_fds.size.toNat := by
      rw [hn, List.range_succ, List.find?_append]
      have h1 : (List.range room.user_fds.size.toNat).find?
          (fun k : Nat => decide ((if (k : Int) = room.user_fds.size then h
            else room.user_fds.data (k : Int)) = h)) = none := by
        refine List.find?_eq_none.mpr ?_
        intro k hk
        have hk' := List.mem_range.mp hk
        have hne : ((k : Nat) : Int) ≠ room.user_fds.size := by omega
        simp only [decide_eq_true_eq, if_neg hne]
        intro hdata
        refine hmem ?_
        rw [← hdata]
        exact mem_obsList room.user_fds k hk'
      rw [h1]
      have h2 : (List.find? (fun k : Nat => decide ((if (k : Int) = room.user_fds.size then h
          else room.user_fds.data (k : Int)) = h)) [room.user_fds.size.toNat]) =
          some room.user_fds.size.toNat := by
        refine List.find?_cons_of_pos _ ?_
        simp [hsz]
      rw [h2]
      rfl
    have hrem : remove_user
        { user_fds :=
            { data := fun j => if j = room.user_fds.size then h else room.user_fds.data j,
              size := room.user_fds.size + 1,
              cap := if room.user_fds.size = room.user_fds.cap then 2 * room.user_fds.cap
                     else room.user_fds.cap },
          num_people := room.num_people + 1 } h = Except.ok
        { user_fds :=
            { data := fun j =>
                if ((room.user_fds.size.toNat : Nat) : Int) ≤ j ∧ j < room.num_people + 1 then
                  (if j + 1 = room.user_fds.size then h else room.user_fds.data (j + 1))
                else (if j = room.user_fds.size then h else room.user_fds.data j),
              size := room.user_fds.size + 1 - 1,
              cap := if room.user_fds.size = room.user_fds.cap then 2 * room.user_fds.cap
                     else room.user_fds.cap },
          num_people := room.num_people + 1 - 1 } := by
      unfold remove_user
      dsimp only
      rw [hfind]
    rw [hrem]
    simp only [exceptState]
    refine ⟨?_, by omega, by omega⟩
    unfold obsList
    have hsize : (room.user_fds.size + 1 - 1).toNat = room.user_fds.size.toNat := by omega
    rw [hsize]
    refine List.map_congr_left ?_
    intro k hk
    dsimp only
    have hk' := List.mem_range.mp hk
    have hlt : ¬ (((room.user_fds.size.toNat : Nat) : Int) ≤ ((k : Nat) : Int) ∧
        ((k : Nat) : Int) < room.num_people + 1) := by
      intro hc
      omega
    rw [if_neg hlt, if_neg (show ((k : Nat) : Int) ≠ room.user_fds.size by omega)]

theorem c9_add_remove_roundtrip_witness :
    (roomW.num_people = roomW.user_fds.size ∧ 0 ≤ roomW.user_fds.size ∧
        (5 : Int) ∉ obsList roomW.user_fds) ∧
      (obsList (addThenRemove roomW 5).user_fds = obsList roomW.user_fds ∧
        (addThenRemove roomW 5).user_fds.size = roomW.user_fds.size ∧
        (addThenRemove roomW 5).num_people = roomW.num_people) :=
  ⟨⟨by decide, by decide, by decide⟩,
    c9_add_remove_roundtrip roomW 5 (by decide) (by decide) (by decide)⟩

theorem TrieNode.child_mk (w : Bool) (r : Option Nat) (c : Fin 128 → Option TrieNode) :
    (TrieNode.mk w r c).child = c := rfl

theorem TrieNode.room_mk (w : Bool) (r : Option Nat) (c : Fin 128 → Option TrieNode) :
    (TrieNode.mk w r c).room = r := rfl

theorem searchPath_nil (t : TrieNode) : searchPath t [] = t.room := rfl

theorem searchPath_cons (t : TrieNode) (i : Fin 128) (rest : List (Fin 128)) :
    searchPath t (i :: rest) =
      match t.child i with
      | none => none
      | some c => searchPath c rest := rfl

theorem searchPath_initTrieNode (q : List (Fin 128)) :
    searchPath initTrieNode q = none := by
  cases q with
  | nil => rfl
  | cons i rest => rfl

theorem searchPath_createPath_self (w : Bool) (t : TrieNode) (p : List (Fin 128))
    (rid : Nat) : searchPath (createPath w t p rid) p = some rid := by
  induction p generalizing t with
  | nil => rfl
  | cons i rest ih =>
    rw [createPath, searchPath_cons, TrieNode.child_mk, if_pos rfl]
    exact ih ((t.child i).getD initTrieNode)

theorem searchPath_createPath_other (w : Bool) (t : TrieNode) (p q : List (Fin 128))
    (rid : Nat) (hne : q ≠ p) :
    searchPath (createPath w t p rid) q = searchPath t q := by
  induction p generalizing t q with
  | nil =>
    cases q with
    | nil => exact absurd rfl hne
    | cons j qrest =>
      rw [createPath, searchPath_cons, searchPath_cons, TrieNode.child_mk]
  | cons i rest ih =>
    cases q with
    | nil =>
      rw [createPath, searchPath_nil, searchPath_nil, TrieNode.room_mk]
    | cons j qrest =>
      rw [createPath, searchPath_cons, searchPath_cons, TrieNode.child_mk]
      by_cases hj : j = i
      · subst hj
        have hqr : qrest ≠ rest := fun hx => hne (by rw [hx])
        rw [if_pos rfl]
        dsimp only
        rw [ih ((t.child j).getD initTrieNode) qrest hqr]
        cases hc : t.child j with
        | none => simp [hc, searchPath_initTrieNode]
        | some c => simp [hc]
      · rw [if_neg hj]

/-- C10, as stated, is refuted by high-bit aliasing: create room `A`
(byte 65) in the empty directory, and look up the distinct, never-created
name with the single byte 193.  `toascii` masks each byte with `0x7f` and
`193 & 0x7f = 65`, so the lookup walks the same path and returns the very
room just created instead of no room. -/
theorem c10_counterexample :
    (create_room emptyDirectory [65]).map (fun p => p.1) = some 0 ∧
      search_room emptyDirectory [193] = none ∧
      ([65] : List Nat) ≠ [193] ∧
      (create_room emptyDirectory [65]).map (fun p => search_room p.2 [193]) =
        some (some 0) := by
  refine ⟨by decide, by decide, by decide, by decide⟩

/-- C10 amended: if `create_room name` succeeds (the name has no space and
no newline byte), then `search_room name` on the new directory returns
exactly the created room; and `search_room other` still returns no room for
any name that was absent before — provided `other`'s trie path (its bytes
masked by `toascii` and truncated to `strnlen(·, 21)`) differs from `name`'s.
Names whose masked, truncated paths coincide alias to the same trie slot. -/
theorem c10_create_search (d : Directory) (name other : List Nat)
    (hok : ¬ (10 ∈ name ∨ 32 ∈ name))
    (hdist : namePath other ≠ namePath name)
    (hprev : search_room d other = none) :
    match create_room d name with
    | some (rid, d2) => search_room d2 name = some rid ∧ search_room d2 other = none
    | none => False := by
  rw [create_room, if_neg hok]
  dsimp only
  refine ⟨?_, ?_⟩
  · exact searchPath_createPath_self true d.root (namePath name) d.fresh
  · rw [search_room]
    dsimp only
    rw [searchPath_createPath_other true d.root (namePath name) (namePath other)
        d.fresh hdist]
    exact hprev

theorem c10_create_search_witness :
    ((¬ ((10 : Nat) ∈ [65] ∨ (32 : Nat) ∈ [65])) ∧
        namePath [66] ≠ namePath [65] ∧ search_room emptyDirectory [66] = none) ∧
      (match create_room emptyDirectory [65] with
        | some (rid, d2) =>
          search_room d2 [65] = some rid ∧ search_room d2 [66] = none
        | none => False) :=
  ⟨⟨by decide, by decide, by decide⟩,
    c10_create_search emptyDirectory [65] [66] (by decide) (by decide) (by decide)⟩

/-- C1 is violated by the code: one client (fd 5) joins room `r` (byte 114)
and then disconnects; the now-empty room is still found in the directory,
because the leave path never unmaps it.  `junk` is the fresh room's
uninitialized fd array; the insert reads the out-of-bounds `data[-1]`, so
the theorem assumes only that this junk word differs from the joining fd. -/
theorem c1_empty_room_still_mapped (junk : Int → Int) (hj : junk (-1) ≠ 5) :
    match joinRegister emptyServer [114] 5 junk with
    | some (st1, rid) =>
      search_room (handleDisconnect st1 rid 5).dir [114] = some rid ∧
        ((handleDisconnect st1 rid 5).rooms rid).num_people = 0
    | none => False := by
  have hnj : ¬ junk ((0 : Int) - 1) = 5 := by
    rw [show ((0 : Int) - 1) = -1 from by norm_num]
    exact hj
  have hins : insert_into_rs_array (newRoomMembers junk).user_fds 5 =
      Except.ok { data := fun j => if j = (0 : Int) then 5 else junk j,
                  size := 1, cap := 1000 } := by
    unfold insert_into_rs_array newRoomMembers
    dsimp only
    rw [if_neg hnj]
    norm_num
  have haddM : addMember (newRoomMembers junk) 5 =
      Except.ok { user_fds := { data := fun j => if j = (0 : Int) then 5 else junk j,
                                size := 1, cap := 1000 },
                  num_people := 1 } := by
    unfold addMember
    rw [hins]
    simp [newRoomMembers]
  have hjoin : joinRegister emptyServer [114] 5 junk =
      some ({ dir := { root := createPath false initTrieNode (namePath [114]) 0, fresh := 1 },
              rooms := fun k =>
                if k = 0 then
                  { user_fds := { data := fun j => if j = (0 : Int) then 5 else junk j,
                                  size := 1, cap := 1000 },
                    num_people := 1 }
                else emptyServer.rooms k }, 0) := by
    unfold joinRegister
    rw [show search_room emptyServer.dir [114] = none from rfl]
    rw [show create_room_cs emptyServer.dir [114] =
        some (0, { root := createPath false initTrieNode (namePath [114]) 0, fresh := 1 })
        from rfl]
    rw [haddM]
  rw [hjoin]
  exact ⟨rfl, rfl⟩

theorem c1_empty_room_still_mapped_witness :
    ((fun _ : Int => (0 : Int)) (-1) ≠ 5) ∧
      (match joinRegister emptyServer [114] 5 (fun _ => 0) with
        | some (st1, rid) =>
          search_room (handleDisconnect st1 rid 5).dir [114] = some rid ∧
            ((handleDisconnect st1 rid 5).rooms rid).num_people = 0
        | none => False) :=
  ⟨by decide, c1_empty_room_still_mapped (fun _ => 0) (by decide)⟩

/-- C4 is violated by the code: for two handlers concurrently joining room
`r` (byte 114), the interleaving A-search, B-search, A-create, B-create —
each step one trie-locked critical section, legal because the lock is
dropped between lookup and creation — leaves handler A holding room 0 and
handler B holding the distinct, freshly allocated room 1 (`create_room`
unconditionally overwrites the trie slot), so two callers obtain different
rooms for the same name. -/
theorem c4_two_rooms_for_one_name :
    (c4run [114] [true, false, true, false]).thA.res = some 0 ∧
      (c4run [114] [true, false, true, false]).thB.res = some 1 ∧
      (some 0 : Option Nat) ≠ some 1 := by
  refine ⟨by decide, by decide, by decide⟩

end ChatServer
